/-
  Verification of the IPPL distributed particle-in-cell core against its
  natural-language specification.

  The development shallowly embeds the relevant C++ sources:
    * src/Particle/ParticleAttrib.hpp  (attribute storage, CIC scatter)
    * src/Particle/ParticleBase.hpp    (particle container, ID issuance)
    * src/Field/HaloCells.hpp          (halo exchange engine, pack/unpack)

  Machine integers are modelled with Nat/Int; `size_t` subtraction, which
  wraps modulo 2^64 in C++, is modelled explicitly by `szSub`.  Floating
  point (`double`) arithmetic is modelled by exact rational arithmetic; all
  concrete scenarios evaluated below involve only dyadic values on which
  IEEE double arithmetic is exact, so the rational model coincides with the
  C++ computation there.
-/
import Mathlib

namespace IpplSpec

/-- `size_t` subtraction: `a - b` wrapping modulo `2^64` (faithful for
operands `< 2^64`, which covers every evaluation in this development). -/
def szSub (a b : ℕ) : ℕ := if b ≤ a then a - b else a + 2 ^ 64 - b

/-! ## ParticleAttrib (src/Particle/ParticleAttrib.hpp)

An attribute is stored as a Kokkos view.  We model the view as a total
function `ℕ → α` (Kokkos views are zero-initialised on allocation) together
with its extent (`size()`, the capacity) and the logical `particleCount`. -/

structure ParticleAttrib (α : Type) where
  size : ℕ
  particleCount : ℕ
  data : ℕ → α

/-- `ParticleAttrib::create(size_t n)` (ParticleAttrib.hpp, lines 35-42):
```
size_t current = this->size();
if (current < particleCount + n) {
    this->resize((current + n) * 2);
    particleCount += n;
}
```
Note that the increment of `particleCount` sits inside the conditional:
when the capacity already suffices, nothing happens at all.  `resize`
(Kokkos) preserves existing entries, so `data` is unchanged in the model. -/
def ParticleAttrib.create {α : Type} (a : ParticleAttrib α) (n : ℕ) : ParticleAttrib α :=
  let current := a.size
  if current < a.particleCount + n then
    { a with size := (current + n) * 2, particleCount := a.particleCount + n }
  else
    a

/-- A freshly constructed attribute: empty view, no particles. -/
def ParticleAttrib.init (α : Type) [Zero α] : ParticleAttrib α :=
  { size := 0, particleCount := 0, data := fun _ => 0 }

/-! ## ParticleBase (src/Particle/ParticleBase.hpp)

We track the fields that ID issuance touches: `localNum_m`, `nextID_m`,
`numNodes_m`, and the `ID` attribute's underlying view (zero-initialised).
The communicator is modelled by the constants `rank` (`Ippl::Comm->myNode()`)
and `nodes` (`Ippl::Comm->getNodes()`), which the code reads but never
changes. -/

structure ParticleBase where
  rank : ℕ
  nodes : ℕ
  localNum : ℕ
  nextID : ℤ
  numNodes : ℕ
  ID : ℕ → ℤ

/-- The `ParticleBase` constructor (ParticleBase.hpp, lines 42-53):
`nextID_m(Ippl::Comm->myNode())`, `numNodes_m(Ippl::Comm->getNodes())`,
no particles; the `ID` view is zero-initialised by Kokkos. -/
def ParticleBase.mk0 (rank nodes : ℕ) : ParticleBase :=
  { rank := rank, nodes := nodes, localNum := 0, nextID := rank,
    numNodes := nodes, ID := fun _ => 0 }

/-- `ParticleBase::create(size_t nLocal)` (ParticleBase.hpp, lines 72-93):
```
Kokkos::parallel_for(..., Kokkos::RangePolicy(localNum_m, nLocal),
    ... { ID(i) = this->nextID_m + this->numNodes_m * i; });
nextID_m += numNodes_m * (nLocal - localNum_m);
localNum_m += nLocal;
```
The iteration range is `[localNum_m, nLocal)` — empty when
`nLocal ≤ localNum_m` — and the subtraction `nLocal - localNum_m` is
`size_t` arithmetic (`szSub`). -/
def ParticleBase.create (p : ParticleBase) (nLocal : ℕ) : ParticleBase :=
  { p with
    ID := fun i => if p.localNum ≤ i ∧ i < nLocal
                   then p.nextID + (p.numNodes : ℤ) * (i : ℤ)
                   else p.ID i
    nextID := p.nextID + (p.numNodes : ℤ) * (szSub nLocal p.localNum : ℤ)
    localNum := p.localNum + nLocal }

/-- `ParticleBase::createWithID(index_type id)` (ParticleBase.hpp, lines 95-109):
saves `nextID_m`, sets `nextID_m = id` and `numNodes_m = 0`, calls
`create(1)`, then restores `nextID_m` and sets
`numNodes_m = Ippl::Comm->getNodes()`. -/
def ParticleBase.createWithID (p : ParticleBase) (id : ℤ) : ParticleBase :=
  let tmpNextID := p.nextID
  let p1 := ParticleBase.create { p with nextID := id, numNodes := 0 } 1
  { p1 with nextID := tmpNextID, numNodes := p.nodes }

/-- The local count computed by `ParticleBase::globalCreate(size_t nTotal)`
(ParticleBase.hpp, lines 111-126):
```
size_t nLocal = nTotal / numNodes_m;
const size_t rank = Ippl::Comm->myNode();
size_t rest = nTotal - nLocal * rank;
if (rank < rest) ++nLocal;
```
-/
def globalCreateCount (nTotal numNodes rank : ℕ) : ℕ :=
  let nLocal := nTotal / numNodes
  let rest := szSub nTotal (nLocal * rank)
  if rank < rest then nLocal + 1 else nLocal

/-- `ParticleBase::globalCreate(size_t nTotal)`: computes the local count and
calls `create` with it. -/
def ParticleBase.globalCreate (p : ParticleBase) (nTotal : ℕ) : ParticleBase :=
  p.create (globalCreateCount nTotal p.numNodes p.rank)

/-! ### Claims C2-C5 -/

/-- Execution trace for claim C2: rank 0 of a 3-node cluster performs
`create(1)` twice. -/
def c2Run : ParticleBase := (ParticleBase.mk0 0 3).create 1 |>.create 1

/-- **C2** (code bug).  The claim states that each `create(n_local)` assigns
`ID[i] = next_id + i·num_nodes` to every newly allocated slot
`i ∈ [local_n, local_n + n_local)` and advances `next_id` by
`n_local·num_nodes`, so rank 0 of a 3-node cluster issues IDs 0, 3, 6, ….
The code iterates `Kokkos::RangePolicy(localNum_m, nLocal)` — i.e.
`[local_n, n_local)` — and advances `next_id` by
`num_nodes·(n_local - local_n)`.  After `create(1); create(1)` on rank 0
(3 nodes), the second call's iteration range `[1,1)` is empty: slot 1
retains the zero-initialised value `0`, duplicating slot 0's ID, and
`next_id` stays at 3 instead of advancing to 6 with `ID[1] = 6`. -/
theorem c2_create_id_bug :
    c2Run.ID 1 = 0 ∧ c2Run.ID 0 = 0 ∧ c2Run.nextID = 3 ∧ c2Run.localNum = 2 ∧
    ¬(c2Run.ID 1 = 6 ∧ c2Run.nextID = 6) := by
  refine ⟨rfl, rfl, rfl, rfl, ?_⟩
  intro h
  have := h.1
  simp [c2Run, ParticleBase.create, ParticleBase.mk0, szSub] at this

/-- Execution trace for claim C3: ranks 0, 1, 2 of a 3-node cluster each call
`globalCreate(10)`. -/
def c3Counts : ℕ × ℕ × ℕ :=
  (((ParticleBase.mk0 0 3).globalCreate 10).localNum,
   ((ParticleBase.mk0 1 3).globalCreate 10).localNum,
   ((ParticleBase.mk0 2 3).globalCreate 10).localNum)

/-- **C3** (code bug).  The claim states that `globalCreate(10)` on 3 ranks
creates 4 particles on rank 0 and 3 on each of ranks 1 and 2, summing to 10.
The code computes `rest = nTotal - nLocal * rank` instead of
`nTotal - nLocal * numNodes`, so every rank satisfies `rank < rest` and
creates 4 particles: the counts are (4, 4, 4), summing to 12, not 10. -/
theorem c3_global_create_bug :
    c3Counts = (4, 4, 4) ∧
    c3Counts.1 + c3Counts.2.1 + c3Counts.2.2 ≠ 10 ∧
    c3Counts ≠ (4, 3, 3) := by
  refine ⟨?_, by decide, by decide⟩
  rfl

/-- Execution trace for claim C4: a fresh attribute receives `create(2)` then
`create(1)`. -/
def c4Run : ParticleAttrib ℚ := (ParticleAttrib.init ℚ).create 2 |>.create 1

/-- **C4** (code bug).  The claim states that `ParticleAttrib::create(n)`
always increases the logical size by exactly `n`, reallocating to at least
`2·(current+n)` when capacity is insufficient.  In the code the increment
`particleCount += n` is inside the reallocation branch, so a `create` whose
request fits in the existing capacity is a complete no-op.  On a fresh
attribute, `create(2)` reallocates to capacity 4 with logical size 2, and
the subsequent `create(1)` (capacity 4 ≥ 2+1) leaves the logical size at 2
instead of 3. -/
theorem c4_attrib_create_bug :
    c4Run.particleCount = 2 ∧ c4Run.size = 4 ∧ c4Run.particleCount ≠ 2 + 1 := by
  refine ⟨rfl, rfl, by decide⟩

/-- Execution trace for claim C5: rank 0 of a 3-node cluster performs
`create(1)` and then `createWithID(42)`. -/
def c5Run : ParticleBase := (ParticleBase.mk0 0 3).create 1 |>.createWithID 42

/-- **C5** (code bug).  The claim states that `createWithID(id)` creates one
particle whose assigned ID equals `id` for every prior state.  Because
`create(1)` iterates `Kokkos::RangePolicy(localNum_m, 1)`, the range is
empty whenever the container already holds a particle: the new slot's ID is
never written.  After `create(1); createWithID(42)` on rank 0 (3 nodes),
slot 1 holds the zero-initialised value `0`, not `42` (while `next_id` and
`num_nodes` are restored as claimed). -/
theorem c5_create_with_id_bug :
    c5Run.localNum = 2 ∧ c5Run.ID 1 = 0 ∧ c5Run.ID 1 ≠ 42 ∧
    c5Run.nextID = 3 ∧ c5Run.numNodes = 3 := by
  refine ⟨rfl, rfl, by decide, rfl, rfl⟩

/-! ## HaloCells (src/Field/HaloCells.hpp)

The halo engine works on a 3D view with ghost padding.  We model the view as
a total function on `ℤ × ℤ × ℤ` and a sub-range (`bound_type`) by its
half-open integer bounds `lo`, `hi` per axis. -/

/-- A 3D view (Kokkos view with ghost padding), modelled as a total
function. -/
def View (α : Type) := ℤ × ℤ × ℤ → α

/-- `bound_type`: a half-open sub-range `[lo, hi)` of local-view
coordinates, one pair per axis. -/
structure Bound where
  lo0 : ℤ
  lo1 : ℤ
  lo2 : ℤ
  hi0 : ℤ
  hi1 : ℤ
  hi2 : ℤ
deriving DecidableEq, Repr

/-- Extent of the sub-view along axis 0 (`subview.extent(0)` = `hi - lo`). -/
def Bound.ex0 (b : Bound) : ℕ := (b.hi0 - b.lo0).toNat

/-- Extent of the sub-view along axis 1. -/
def Bound.ex1 (b : Bound) : ℕ := (b.hi1 - b.lo1).toNat

/-- Extent of the sub-view along axis 2. -/
def Bound.ex2 (b : Bound) : ℕ := (b.hi2 - b.lo2).toNat

/-- Number of elements of the sub-range: the element count `subview.size()`
used for `nsends`, and the product `(hi[0]-lo[0])*(hi[1]-lo[1])*(hi[2]-lo[2])`
used for `nrecvs` (the two agree on well-formed, i.e. nonempty-or-empty
`lo ≤ hi`, ranges). -/
def Bound.size (b : Bound) : ℕ := b.ex0 * b.ex1 * b.ex2

/-- A point of the view lies inside the sub-range. -/
def Bound.mem (b : Bound) (p : ℤ × ℤ × ℤ) : Prop :=
  b.lo0 ≤ p.1 ∧ p.1 < b.hi0 ∧ b.lo1 ≤ p.2.1 ∧ p.2.1 < b.hi1 ∧
  b.lo2 ≤ p.2.2 ∧ p.2.2 < b.hi2

instance (b : Bound) (p : ℤ × ℤ × ℤ) : Decidable (b.mem p) := by
  unfold Bound.mem; infer_instance

/-- The row-major linear index `l = i + j*ex0 + k*ex0*ex1` of a view point
`p` relative to the sub-range: `(i,j,k) = p - lo`. -/
def Bound.lin (b : Bound) (p : ℤ × ℤ × ℤ) : ℕ :=
  (p.1 - b.lo0).toNat + (p.2.1 - b.lo1).toNat * b.ex0 +
    (p.2.2 - b.lo2).toNat * b.ex0 * b.ex1

/-- `FieldBufferData<T>` (the rank-local scratch buffer `fd_m`): a linear
Kokkos view with its extent.  `Kokkos::realloc` changes the extent. -/
structure FieldBufferData (α : Type) where
  extent : ℕ
  buffer : ℕ → α

/-- Buffer contents after `HaloCells::pack` (HaloCells.hpp, lines 345-377).
The data-parallel kernel writes, for every `(i,j,k)` of the sub-view box,
```
int l = i + j * ex0 + k * ex0 * ex1;
buffer(l) = subview(i, j, k);
```
Each buffer slot `l < ex0*ex1*ex2` is written exactly once (the row-major
map is a bijection from the box onto `[0, size)`), so the final buffer state
maps such `l` to the source point with `i = l % ex0`, `j = (l/ex0) % ex1`,
`k = l/(ex0*ex1)`; all other slots keep their previous contents. -/
def packBuf {α : Type} (b : Bound) (v : View α) (buf : ℕ → α) : ℕ → α :=
  fun l =>
    if l < b.size then
      v (b.lo0 + (l % b.ex0 : ℕ), b.lo1 + ((l / b.ex0) % b.ex1 : ℕ),
         b.lo2 + (l / (b.ex0 * b.ex1) : ℕ))
    else buf l

/-- The combine operation passed as template argument `Op` to the halo
exchange: `assign` for `fillHalo`, `plus_assign` for `accumulateHalo`. -/
inductive CombineOp where
  | assign
  | plusAssign
deriving DecidableEq, Repr

/-- Modelled from the spec: the functors `assign` (`lhs = rhs`) and
`plus_assign` (`lhs += rhs`) are defined outside the provided sources; the
spec fixes their meaning as overwrite and add-into. -/
def CombineOp.apply {α : Type} [Add α] : CombineOp → α → α → α
  | .assign, _, rhs => rhs
  | .plusAssign, lhs, rhs => lhs + rhs

/-- View contents after `HaloCells::unpack<Op>` (HaloCells.hpp, lines
380-409).  The data-parallel kernel applies, for every `(i,j,k)` of the
sub-view box,
```
int l = i + j * ex0 + k * ex0 * ex1;
op(subview(i, j, k), buffer(l));
```
Each view point of the box is combined exactly once with its row-major
buffer slot; points outside the box are untouched. -/
def unpackView {α : Type} [Add α] (op : CombineOp) (b : Bound) (buf : ℕ → α)
    (v : View α) : View α :=
  fun p => if b.mem p then op.apply (v p) (buf (b.lin p)) else v p

/-- `FieldLayout`'s precomputed neighbor tables consumed by the halo engine:
for faces and edges a list of remote ranks per slot with matching
`send_range`/`recv_range` tables of the same shape; for vertices a single
rank per slot (negative = physical-boundary sentinel) with matching range
tables. -/
structure Layout where
  faceNeighbors : List (List ℤ)
  faceSendRange : List (List Bound)
  faceRecvRange : List (List Bound)
  edgeNeighbors : List (List ℤ)
  edgeSendRange : List (List Bound)
  edgeRecvRange : List (List Bound)
  vertexNeighbors : List ℤ
  vertexSendRange : List Bound
  vertexRecvRange : List Bound

/-- `SendOrder` (`INTERNAL_TO_HALO` / `HALO_TO_INTERNAL`). -/
inductive SendOrder where
  | internalToHalo
  | haloToInternal
deriving DecidableEq, Repr

/-- The three tag families used by the halo phases
(`HALO_FACE_TAG`, `HALO_EDGE_TAG`, `HALO_VERTEX_TAG` — three distinct
bases). -/
inductive TagFamily where
  | face
  | edge
  | vertex
deriving DecidableEq, Repr

/-- The per-family tag counters of the communicator. -/
def CommState := TagFamily → ℕ

/-- Modelled from the spec: `Communicate::next_tag(base, cycle)` (the
communicator façade is outside the provided sources).  Per spec §4.4 the
allocator is monotone within a `(base, cycle)` family and wraps around to
the base after `cycle` values; we represent the returned tag as the pair of
the family and the in-family offset `count % cycle`, and bump the family's
counter. -/
def nextTag (fam : TagFamily) (cycle : ℕ) (s : CommState) :
    (TagFamily × ℕ) × CommState :=
  ((fam, s fam % cycle), Function.update s fam (s fam + 1))

/-- One message posted by `Ippl::Comm->isend` during a halo phase. -/
structure SendMsg (α : Type) where
  rank : ℤ
  tag : TagFamily × ℕ
  range : Bound
  count : ℕ
  data : ℕ → α

/-- One receive performed during a halo phase: the partner, the tag, the
range unpacked into, the element count `nrecvs`, and the scratch-buffer
extent at the moment the receive is issued (after the realloc pre-step). -/
structure RecvRec where
  rank : ℤ
  tag : TagFamily × ℕ
  range : Bound
  count : ℕ
  extentAtRecv : ℕ
deriving DecidableEq, Repr

/-- `HaloCells::pack`'s effect on the scratch buffer, with the element count
it reports (`nsends`): `nsends = subview.size()`; the buffer is reallocated
when `buffer.size() < size`; the kernel then fills the first `size` slots. -/
def packStep {α : Type} (b : Bound) (v : View α) (fd : FieldBufferData α) :
    ℕ × FieldBufferData α :=
  let size := b.size
  let ext := if fd.extent < size then size else fd.extent
  (size, ⟨ext, packBuf b v fd.buffer⟩)

/-- The send loop of `exchangeFaces`/`exchangeEdges` (HaloCells.hpp, lines
86-114 and 179-206): for each slot and each neighbor `i` in the slot, select
`send_range` when the order is `INTERNAL_TO_HALO` and `recv_range`
otherwise, pack the sub-view into the scratch buffer and post the send. -/
def sendLoop {α : Type} (v : View α) (order : SendOrder) (tag : TagFamily × ℕ)
    (slots : List (ℤ × Bound × Bound)) (fd : FieldBufferData α) :
    FieldBufferData α × List (SendMsg α) :=
  match slots with
  | [] => (fd, [])
  | (rank, sR, rR) :: rest =>
    let range := match order with
      | .internalToHalo => sR
      | .haloToInternal => rR
    let res := packStep range v fd
    let rec' := sendLoop v order tag rest res.2
    (rec'.1, ⟨rank, tag, range, res.1, res.2.buffer⟩ :: rec'.2)

/-- The receive loop of `exchangeFaces`/`exchangeEdges` (HaloCells.hpp, lines
117-148 and 209-241): select `recv_range` when the order is
`INTERNAL_TO_HALO` and `send_range` otherwise, compute
`nrecvs = (hi[0]-lo[0])*(hi[1]-lo[1])*(hi[2]-lo[2])`, reallocate the scratch
buffer when `nrecvs > fd_m.buffer.extent(0)`, receive into it (the incoming
payloads are supplied by `inbox`, indexed by the position of the receive in
the phase), and unpack combining with `Op`. -/
def recvLoop {α : Type} [Add α] (op : CombineOp) (order : SendOrder)
    (tag : TagFamily × ℕ) (inbox : ℕ → ℕ → α)
    (slots : List (ℤ × Bound × Bound)) (v : View α) (fd : FieldBufferData α)
    (idx : ℕ) : View α × FieldBufferData α × List RecvRec :=
  match slots with
  | [] => (v, fd, [])
  | (rank, sR, rR) :: rest =>
    let range := match order with
      | .internalToHalo => rR
      | .haloToInternal => sR
    let nrecvs := range.size
    let ext := if fd.extent < nrecvs then nrecvs else fd.extent
    let fd' : FieldBufferData α := ⟨ext, inbox idx⟩
    let v' := unpackView op range fd'.buffer v
    let rec' := recvLoop op order tag inbox rest v' fd' (idx + 1)
    (rec'.1, rec'.2.1, ⟨rank, tag, range, nrecvs, ext⟩ :: rec'.2.2)

/-- The slot list iterated by the grouped (face/edge) phases: for each group
`g` and index `i`, the triple `(neighbors[g][i], sendRange[g][i],
recvRange[g][i])`. -/
def groupedSlots (nbrs : List (List ℤ)) (sR rR : List (List Bound)) :
    List (ℤ × Bound × Bound) :=
  (nbrs.zip (sR.zip rR)).flatMap fun g => g.1.zip (g.2.1.zip g.2.2)

/-- Result of one halo exchange phase. -/
structure ExchangeResult (α : Type) where
  view : View α
  state : CommState
  fd : FieldBufferData α
  sends : List (SendMsg α)
  recvs : List RecvRec
  tag : TagFamily × ℕ

/-- Common body of `exchangeFaces` and `exchangeEdges`: draw one tag from
the phase's family, run the send loop over all slots, then the receive
loop, with the scratch buffer threaded through (`nghost` is received but,
apart from the no-op `nghost *= 1`, never used — all ranges come from the
precomputed tables). -/
def exchangeGrouped {α : Type} [Add α] (op : CombineOp) (fam : TagFamily)
    (nbrs : List (List ℤ)) (sR rR : List (List Bound)) (v : View α)
    (nghost : ℤ) (order : SendOrder) (inbox : ℕ → ℕ → α) (cycle : ℕ)
    (s : CommState) (fd : FieldBufferData α) : ExchangeResult α :=
  let tagRes := nextTag fam cycle s
  let slots := groupedSlots nbrs sR rR
  let sendRes := sendLoop v order tagRes.1 slots fd
  let recvRes := recvLoop op order tagRes.1 inbox slots v sendRes.1 0
  ⟨recvRes.1, tagRes.2, recvRes.2.1, sendRes.2, recvRes.2.2, tagRes.1⟩

/-- `HaloCells::exchangeFaces<Op>` (HaloCells.hpp, lines 58-153). -/
def exchangeFaces {α : Type} [Add α] (op : CombineOp) (v : View α)
    (L : Layout) (nghost : ℤ) (order : SendOrder) (inbox : ℕ → ℕ → α)
    (cycle : ℕ) (s : CommState) (fd : FieldBufferData α) : ExchangeResult α :=
  exchangeGrouped op .face L.faceNeighbors L.faceSendRange L.faceRecvRange
    v nghost order inbox cycle s fd

/-- `HaloCells::exchangeEdges<Op>` (HaloCells.hpp, lines 156-246). -/
def exchangeEdges {α : Type} [Add α] (op : CombineOp) (v : View α)
    (L : Layout) (nghost : ℤ) (order : SendOrder) (inbox : ℕ → ℕ → α)
    (cycle : ℕ) (s : CommState) (fd : FieldBufferData α) : ExchangeResult α :=
  exchangeGrouped op .edge L.edgeNeighbors L.edgeSendRange L.edgeRecvRange
    v nghost order inbox cycle s fd

/-- The send loop of `exchangeVertices` (HaloCells.hpp, lines 271-300):
identical to the grouped send loop except that a slot whose neighbor is
negative (physical boundary) is skipped with `continue`. -/
def vertexSendLoop {α : Type} (v : View α) (order : SendOrder)
    (tag : TagFamily × ℕ) (slots : List (ℤ × Bound × Bound))
    (fd : FieldBufferData α) : FieldBufferData α × List (SendMsg α) :=
  match slots with
  | [] => (fd, [])
  | (rank, sR, rR) :: rest =>
    if rank < 0 then
      vertexSendLoop v order tag rest fd
    else
      let range := match order with
        | .internalToHalo => sR
        | .haloToInternal => rR
      let res := packStep range v fd
      let rec' := vertexSendLoop v order tag rest res.2
      (rec'.1, ⟨rank, tag, range, res.1, res.2.buffer⟩ :: rec'.2)

/-- The receive loop of `exchangeVertices` (HaloCells.hpp, lines 303-337):
identical to the grouped receive loop except that slots on a physical
boundary are skipped. -/
def vertexRecvLoop {α : Type} [Add α] (op : CombineOp) (order : SendOrder)
    (tag : TagFamily × ℕ) (inbox : ℕ → ℕ → α)
    (slots : List (ℤ × Bound × Bound)) (v : View α) (fd : FieldBufferData α)
    (idx : ℕ) : View α × FieldBufferData α × List RecvRec :=
  match slots with
  | [] => (v, fd, [])
  | (rank, sR, rR) :: rest =>
    if rank < 0 then
      vertexRecvLoop op order tag inbox rest v fd idx
    else
      let range := match order with
        | .internalToHalo => rR
        | .haloToInternal => sR
      let nrecvs := range.size
      let ext := if fd.extent < nrecvs then nrecvs else fd.extent
      let fd' : FieldBufferData α := ⟨ext, inbox idx⟩
      let v' := unpackView op range fd'.buffer v
      let rec' := vertexRecvLoop op order tag inbox rest v' fd' (idx + 1)
      (rec'.1, rec'.2.1, ⟨rank, tag, range, nrecvs, ext⟩ :: rec'.2.2)

/-- The slot list iterated by the vertex phase. -/
def vertexSlots (L : Layout) : List (ℤ × Bound × Bound) :=
  L.vertexNeighbors.zip (L.vertexSendRange.zip L.vertexRecvRange)

/-- `HaloCells::exchangeVertices<Op>` (HaloCells.hpp, lines 249-342). -/
def exchangeVertices {α : Type} [Add α] (op : CombineOp) (v : View α)
    (L : Layout) (nghost : ℤ) (order : SendOrder) (inbox : ℕ → ℕ → α)
    (cycle : ℕ) (s : CommState) (fd : FieldBufferData α) : ExchangeResult α :=
  let tagRes := nextTag .vertex cycle s
  let slots := vertexSlots L
  let sendRes := vertexSendLoop v order tagRes.1 slots fd
  let recvRes := vertexRecvLoop op order tagRes.1 inbox slots v sendRes.1 0
  ⟨recvRes.1, tagRes.2, recvRes.2.1, sendRes.2, recvRes.2.2, tagRes.1⟩

/-- The three phases of a halo operation, in source order. -/
inductive Phase where
  | faces
  | edges
  | vertices
deriving DecidableEq, Repr

/-- Result of a complete halo operation (`fillHalo`/`accumulateHalo`),
with the trace of its phases: which phase ran, with which combine op, in
which send order, and under which tag. -/
structure HaloResult (α : Type) where
  view : View α
  state : CommState
  fd : FieldBufferData α
  sends : List (SendMsg α)
  recvs : List RecvRec
  trace : List (Phase × CombineOp × SendOrder × (TagFamily × ℕ))

/-- Chain the three exchange phases with a fixed combine op and send order
(the shared shape of `fillHalo` and `accumulateHalo`,
HaloCells.hpp lines 32-55). -/
def haloRun {α : Type} [Add α] (op : CombineOp) (order : SendOrder)
    (v : View α) (L : Layout) (nghost : ℤ) (inbox : Phase → ℕ → ℕ → α)
    (cycle : ℕ) (s : CommState) (fd : FieldBufferData α) : HaloResult α :=
  let r1 := exchangeFaces op v L nghost order (inbox .faces) cycle s fd
  let r2 := exchangeEdges op r1.view L nghost order (inbox .edges) cycle
    r1.state r1.fd
  let r3 := exchangeVertices op r2.view L nghost order (inbox .vertices) cycle
    r2.state r2.fd
  ⟨r3.view, r3.state, r3.fd, r1.sends ++ r2.sends ++ r3.sends,
   r1.recvs ++ r2.recvs ++ r3.recvs,
   [(.faces, op, order, r1.tag), (.edges, op, order, r2.tag),
    (.vertices, op, order, r3.tag)]⟩

/-- `HaloCells::fillHalo` (HaloCells.hpp, lines 45-55): faces, edges,
vertices with `assign` and `INTERNAL_TO_HALO`. -/
def fillHalo {α : Type} [Add α] (v : View α) (L : Layout) (nghost : ℤ)
    (inbox : Phase → ℕ → ℕ → α) (cycle : ℕ) (s : CommState)
    (fd : FieldBufferData α) : HaloResult α :=
  haloRun .assign .internalToHalo v L nghost inbox cycle s fd

/-- `HaloCells::accumulateHalo` (HaloCells.hpp, lines 32-42): faces, edges,
vertices with `plus_assign` and `HALO_TO_INTERNAL`. -/
def accumulateHalo {α : Type} [Add α] (v : View α) (L : Layout) (nghost : ℤ)
    (inbox : Phase → ℕ → ℕ → α) (cycle : ℕ) (s : CommState)
    (fd : FieldBufferData α) : HaloResult α :=
  haloRun .plusAssign .haloToInternal v L nghost inbox cycle s fd

/-! ### Claims C7, C9, C10 -/

/-- **C7** (confirmed).  `fillHalo` runs with mode `INTERNAL_TO_HALO` and
combine-op `assign`, `accumulateHalo` with `HALO_TO_INTERNAL` and
`plus_assign`; each runs exactly the three phases faces → edges → vertices
in that order, and each phase draws one fresh tag from its own
`(base, cycle)` family (`HALO_FACE_TAG`, `HALO_EDGE_TAG`,
`HALO_VERTEX_TAG`): the tag offsets are taken from the per-family counters,
and each family's counter advances by exactly one per operation. -/
theorem c7_fill_accumulate_phases {α : Type} [Add α] (v : View α) (L : Layout)
    (nghost : ℤ) (inbox : Phase → ℕ → ℕ → α) (cycle : ℕ) (s : CommState)
    (fd : FieldBufferData α) :
    (fillHalo v L nghost inbox cycle s fd).trace =
      [(.faces, .assign, .internalToHalo, (.face, s .face % cycle)),
       (.edges, .assign, .internalToHalo, (.edge, s .edge % cycle)),
       (.vertices, .assign, .internalToHalo, (.vertex, s .vertex % cycle))] ∧
    (∀ f, (fillHalo v L nghost inbox cycle s fd).state f = s f + 1) ∧
    (accumulateHalo v L nghost inbox cycle s fd).trace =
      [(.faces, .plusAssign, .haloToInternal, (.face, s .face % cycle)),
       (.edges, .plusAssign, .haloToInternal, (.edge, s .edge % cycle)),
       (.vertices, .plusAssign, .haloToInternal, (.vertex, s .vertex % cycle))] ∧
    (∀ f, (accumulateHalo v L nghost inbox cycle s fd).state f = s f + 1) := by
  refine ⟨?_, ?_, ?_, ?_⟩
  · simp [fillHalo, haloRun, exchangeFaces, exchangeEdges,
      exchangeVertices, exchangeGrouped, nextTag, Function.update_apply]
  · intro f
    cases f <;>
      simp [fillHalo, haloRun, exchangeFaces, exchangeEdges,
        exchangeVertices, exchangeGrouped, nextTag, Function.update_apply]
  · simp [accumulateHalo, haloRun, exchangeFaces, exchangeEdges,
      exchangeVertices, exchangeGrouped, nextTag, Function.update_apply]
  · intro f
    cases f <;>
      simp [accumulateHalo, haloRun, exchangeFaces, exchangeEdges,
        exchangeVertices, exchangeGrouped, nextTag, Function.update_apply]

/-- Every receive recorded by the grouped receive loop is issued with a
scratch-buffer extent at least as large as its element count. -/
theorem recvLoop_no_truncation {α : Type} [Add α] (op : CombineOp)
    (order : SendOrder) (tag : TagFamily × ℕ) (inbox : ℕ → ℕ → α) :
    ∀ (slots : List (ℤ × Bound × Bound)) (v : View α) (fd : FieldBufferData α)
      (idx : ℕ) r, r ∈ (recvLoop op order tag inbox slots v fd idx).2.2 →
      r.count ≤ r.extentAtRecv := by
  intro slots
  induction slots with
  | nil => intro v fd idx r h; simp [recvLoop] at h
  | cons hd tl ih =>
    intro v fd idx r h
    obtain ⟨rank, sR, rR⟩ := hd
    simp only [recvLoop, List.mem_cons] at h
    rcases h with h | h
    · subst h
      cases order <;>
      · dsimp only
        split <;> omega
    · exact ih _ _ _ _ h

/-- Every receive recorded by the vertex receive loop is issued with a
scratch-buffer extent at least as large as its element count. -/
theorem vertexRecvLoop_no_truncation {α : Type} [Add α] (op : CombineOp)
    (order : SendOrder) (tag : TagFamily × ℕ) (inbox : ℕ → ℕ → α) :
    ∀ (slots : List (ℤ × Bound × Bound)) (v : View α) (fd : FieldBufferData α)
      (idx : ℕ) r, r ∈ (vertexRecvLoop op order tag inbox slots v fd idx).2.2 →
      r.count ≤ r.extentAtRecv := by
  intro slots
  induction slots with
  | nil => intro v fd idx r h; simp [vertexRecvLoop] at h
  | cons hd tl ih =>
    intro v fd idx r h
    obtain ⟨rank, sR, rR⟩ := hd
    by_cases hneg : rank < 0
    · rw [vertexRecvLoop.eq_def] at h
      simp only [if_pos hneg] at h
      exact ih _ _ _ _ h
    · rw [vertexRecvLoop.eq_def] at h
      simp only [if_neg hneg, List.mem_cons] at h
      rcases h with h | h
      · subst h
        cases order <;>
        · dsimp only
          split <;> omega
      · exact ih _ _ _ _ h

/-- **C9** (confirmed).  In every halo receive step of `fillHalo` and of
`accumulateHalo`, if the incoming element count exceeds the current scratch
buffer extent, the buffer is reallocated to the required size before the
receive is issued: at the moment each receive is posted the buffer extent
is at least the element count, so received data is never truncated. -/
theorem c9_receive_never_truncates {α : Type} [Add α] (v : View α)
    (L : Layout) (nghost : ℤ) (inbox : Phase → ℕ → ℕ → α) (cycle : ℕ)
    (s : CommState) (fd : FieldBufferData α) :
    (∀ r ∈ (fillHalo v L nghost inbox cycle s fd).recvs,
        r.count ≤ r.extentAtRecv) ∧
    (∀ r ∈ (accumulateHalo v L nghost inbox cycle s fd).recvs,
        r.count ≤ r.extentAtRecv) := by
  constructor <;>
  · intro r h
    simp only [fillHalo, accumulateHalo, haloRun, exchangeFaces, exchangeEdges,
      exchangeVertices, exchangeGrouped, List.mem_append] at h
    rcases h with (h | h) | h
    · exact recvLoop_no_truncation _ _ _ _ _ _ _ _ _ h
    · exact recvLoop_no_truncation _ _ _ _ _ _ _ _ _ h
    · exact vertexRecvLoop_no_truncation _ _ _ _ _ _ _ _ _ h

/-- Concrete single-face-neighbor layout used to witness the halo theorems. -/
def witnessLayout : Layout :=
  { faceNeighbors := [[1], [], [], [], [], []]
    faceSendRange := [[⟨4, 1, 1, 5, 5, 5⟩], [], [], [], [], []]
    faceRecvRange := [[⟨5, 1, 1, 6, 5, 5⟩], [], [], [], [], []]
    edgeNeighbors := List.replicate 12 []
    edgeSendRange := List.replicate 12 []
    edgeRecvRange := List.replicate 12 []
    vertexNeighbors := List.replicate 8 (-1)
    vertexSendRange := List.replicate 8 ⟨0, 0, 0, 0, 0, 0⟩
    vertexRecvRange := List.replicate 8 ⟨0, 0, 0, 0, 0, 0⟩ }

/-- The single receive record produced by `fillHalo` on `witnessLayout`. -/
def c9WitnessRec : RecvRec :=
  { rank := 1, tag := (.face, 0), range := ⟨5, 1, 1, 6, 5, 5⟩,
    count := 16, extentAtRecv := 16 }

/-- Witness for C9: a concrete receive of `fillHalo` on `witnessLayout`
(16 incoming elements into an initially empty scratch buffer) satisfies the
no-truncation bound. -/
theorem c9_witness :
    c9WitnessRec ∈
      (fillHalo (fun _ => (0 : ℚ)) witnessLayout 1 (fun _ _ _ => 0) 1000
        (fun _ => 0) ⟨0, fun _ => 0⟩).recvs ∧
    c9WitnessRec.count ≤ c9WitnessRec.extentAtRecv := by
  have hmem : c9WitnessRec ∈
      (fillHalo (fun _ => (0 : ℚ)) witnessLayout 1 (fun _ _ _ => 0) 1000
        (fun _ => 0) ⟨0, fun _ => 0⟩).recvs := by
    simp [fillHalo, haloRun, exchangeFaces, exchangeEdges, exchangeVertices,
      exchangeGrouped, witnessLayout, groupedSlots, vertexSlots, sendLoop,
      recvLoop, vertexSendLoop, vertexRecvLoop, nextTag, packStep,
      c9WitnessRec, Bound.size, Bound.ex0, Bound.ex1, Bound.ex2,
      List.replicate]
  exact ⟨hmem, (c9_receive_never_truncates (fun _ => (0 : ℚ)) witnessLayout 1
    (fun _ _ _ => 0) 1000 (fun _ => 0) ⟨0, fun _ => 0⟩).1 _ hmem⟩

/-- **C10** (confirmed).  The `nghost` argument of `fillHalo` and
`accumulateHalo` is redundant: apart from the no-op `nghost *= 1` it is
never read (the commented-out `getBounds` logic is gone and every range
comes from the layout's precomputed send/recv tables), so two runs that
differ only in `nghost` produce identical results — same final view,
communicator state, scratch buffer, messages and trace. -/
theorem c10_nghost_noninterference {α : Type} [Add α] (v : View α)
    (L : Layout) (inbox : Phase → ℕ → ℕ → α) (cycle : ℕ) (s : CommState)
    (fd : FieldBufferData α) (g1 g2 : ℤ) :
    fillHalo v L g1 inbox cycle s fd = fillHalo v L g2 inbox cycle s fd ∧
    accumulateHalo v L g1 inbox cycle s fd =
      accumulateHalo v L g2 inbox cycle s fd :=
  ⟨rfl, rfl⟩

/-! ### Claim C6 -/

/-- Spec-side description of a grouped phase's traffic: each neighbor of
each slot, paired with the corresponding entry of one precomputed range
table. -/
def groupedPairs (nbrs : List (List ℤ)) (tbl : List (List Bound)) :
    List (ℤ × Bound) :=
  (nbrs.zip tbl).flatMap fun g => g.1.zip g.2

/-- Spec-side description of the vertex phase's traffic: each vertex slot
paired with its table entry, with physical-boundary slots (negative
sentinel) skipped. -/
def vertexPairs (nbrs : List ℤ) (tbl : List Bound) : List (ℤ × Bound) :=
  (nbrs.zip tbl).filter fun x => decide (0 ≤ x.1)

/-- Shape invariant of a grouped neighbor structure: the neighbor list and
the two range tables have the same shape (spec §4.3: matching
`send_range`/`recv_range` tables of the same shape). -/
def tablesWf (nbrs : List (List ℤ)) (sR rR : List (List Bound)) : Prop :=
  nbrs.length = sR.length ∧ sR.length = rR.length ∧
    ∀ g ∈ nbrs.zip (sR.zip rR),
      g.1.length = g.2.1.length ∧ g.2.1.length = g.2.2.length

instance (nbrs : List (List ℤ)) (sR rR : List (List Bound)) :
    Decidable (tablesWf nbrs sR rR) := by
  unfold tablesWf; infer_instance

/-- Shape invariant of the vertex neighbor structure. -/
def vertexTablesWf (nbrs : List ℤ) (sR rR : List Bound) : Prop :=
  nbrs.length = sR.length ∧ sR.length = rR.length

instance (nbrs : List ℤ) (sR rR : List Bound) :
    Decidable (vertexTablesWf nbrs sR rR) := by
  unfold vertexTablesWf; infer_instance

/-- The grouped send loop posts one message per slot, whose range is the
slot's `send_range` entry under `INTERNAL_TO_HALO` and its `recv_range`
entry under `HALO_TO_INTERNAL`. -/
theorem sendLoop_msgs {α : Type} (v : View α) (order : SendOrder)
    (tag : TagFamily × ℕ) :
    ∀ (slots : List (ℤ × Bound × Bound)) (fd : FieldBufferData α),
      (sendLoop v order tag slots fd).2.map (fun m => (m.rank, m.range)) =
        slots.map (fun x => (x.1, match order with
          | .internalToHalo => x.2.1
          | .haloToInternal => x.2.2)) := by
  intro slots
  induction slots with
  | nil => intro fd; simp [sendLoop]
  | cons hd tl ih =>
    intro fd
    obtain ⟨rank, sR, rR⟩ := hd
    simp only [sendLoop, List.map_cons]
    rw [ih]

/-- The grouped receive loop performs one receive per slot, whose range is
the slot's `recv_range` entry under `INTERNAL_TO_HALO` and its `send_range`
entry under `HALO_TO_INTERNAL`. -/
theorem recvLoop_msgs {α : Type} [Add α] (op : CombineOp) (order : SendOrder)
    (tag : TagFamily × ℕ) (inbox : ℕ → ℕ → α) :
    ∀ (slots : List (ℤ × Bound × Bound)) (v : View α)
      (fd : FieldBufferData α) (idx : ℕ),
      (recvLoop op order tag inbox slots v fd idx).2.2.map
          (fun r => (r.rank, r.range)) =
        slots.map (fun x => (x.1, match order with
          | .internalToHalo => x.2.2
          | .haloToInternal => x.2.1)) := by
  intro slots
  induction slots with
  | nil => intro v fd idx; simp [recvLoop]
  | cons hd tl ih =>
    intro v fd idx
    obtain ⟨rank, sR, rR⟩ := hd
    simp only [recvLoop, List.map_cons]
    rw [ih]

/-- The vertex send loop posts one message per non-boundary slot, with the
same order-dependent range selection as the grouped loops. -/
theorem vertexSendLoop_msgs {α : Type} (v : View α) (order : SendOrder)
    (tag : TagFamily × ℕ) :
    ∀ (slots : List (ℤ × Bound × Bound)) (fd : FieldBufferData α),
      (vertexSendLoop v order tag slots fd).2.map
          (fun m => (m.rank, m.range)) =
        (slots.filter fun x => decide (0 ≤ x.1)).map
          (fun x => (x.1, match order with
            | .internalToHalo => x.2.1
            | .haloToInternal => x.2.2)) := by
  intro slots
  induction slots with
  | nil => intro fd; simp [vertexSendLoop]
  | cons hd tl ih =>
    intro fd
    obtain ⟨rank, sR, rR⟩ := hd
    by_cases hneg : rank < 0
    · rw [vertexSendLoop.eq_def]
      simp only [if_pos hneg]
      rw [ih, List.filter_cons]
      simp [not_le.mpr hneg]
    · rw [vertexSendLoop.eq_def]
      simp only [if_neg hneg]
      rw [List.filter_cons]
      simp only [not_lt.mp hneg, decide_True, if_true, List.map_cons]
      rw [ih]

/-- The vertex receive loop performs one receive per non-boundary slot,
with the swapped order-dependent range selection. -/
theorem vertexRecvLoop_msgs {α : Type} [Add α] (op : CombineOp)
    (order : SendOrder) (tag : TagFamily × ℕ) (inbox : ℕ → ℕ → α) :
    ∀ (slots : List (ℤ × Bound × Bound)) (v : View α)
      (fd : FieldBufferData α) (idx : ℕ),
      (vertexRecvLoop op order tag inbox slots v fd idx).2.2.map
          (fun r => (r.rank, r.range)) =
        (slots.filter fun x => decide (0 ≤ x.1)).map
          (fun x => (x.1, match order with
            | .internalToHalo => x.2.2
            | .haloToInternal => x.2.1)) := by
  intro slots
  induction slots with
  | nil => intro v fd idx; simp [vertexRecvLoop]
  | cons hd tl ih =>
    intro v fd idx
    obtain ⟨rank, sR, rR⟩ := hd
    by_cases hneg : rank < 0
    · rw [vertexRecvLoop.eq_def]
      simp only [if_pos hneg]
      rw [ih, List.filter_cons]
      simp [not_le.mpr hneg]
    · rw [vertexRecvLoop.eq_def]
      simp only [if_neg hneg]
      rw [List.filter_cons]
      simp only [not_lt.mp hneg, decide_True, if_true, List.map_cons]
      rw [ih]

/-- Projecting the zipped three-table slot list onto the first range table
recovers the plain neighbor/table zip, given matching lengths. -/
theorem zip3_proj_fst : ∀ (ns : List ℤ) (ss rs : List Bound),
    ns.length = ss.length → ss.length = rs.length →
    (ns.zip (ss.zip rs)).map (fun x => (x.1, x.2.1)) = ns.zip ss := by
  intro ns
  induction ns with
  | nil => intro ss rs _ _; simp
  | cons n nt ih =>
    intro ss rs h1 h2
    cases ss with
    | nil => simp at h1
    | cons s st =>
      cases rs with
      | nil => simp at h2
      | cons r rt =>
        simp only [List.zip_cons_cons, List.map_cons]
        rw [ih st rt (by simpa using h1) (by simpa using h2)]

/-- Projecting the zipped three-table slot list onto the second range table
recovers the plain neighbor/table zip, given matching lengths. -/
theorem zip3_proj_snd : ∀ (ns : List ℤ) (ss rs : List Bound),
    ns.length = ss.length → ss.length = rs.length →
    (ns.zip (ss.zip rs)).map (fun x => (x.1, x.2.2)) = ns.zip rs := by
  intro ns
  induction ns with
  | nil => intro ss rs _ _; simp
  | cons n nt ih =>
    intro ss rs h1 h2
    cases ss with
    | nil => simp at h1
    | cons s st =>
      cases rs with
      | nil => simp at h2
      | cons r rt =>
        simp only [List.zip_cons_cons, List.map_cons]
        rw [ih st rt (by simpa using h1) (by simpa using h2)]

/-- Projecting the grouped slot list onto the send table. -/
theorem groupedSlots_proj_send : ∀ (nbrs : List (List ℤ))
    (sR rR : List (List Bound)), tablesWf nbrs sR rR →
    (groupedSlots nbrs sR rR).map (fun x => (x.1, x.2.1)) =
      groupedPairs nbrs sR := by
  intro nbrs
  induction nbrs with
  | nil =>
    intro sR rR h
    obtain ⟨h1, -, -⟩ := h
    cases sR with
    | nil => simp [groupedSlots, groupedPairs]
    | cons s st => simp at h1
  | cons n nt ih =>
    intro sR rR h
    obtain ⟨h1, h2, h3⟩ := h
    cases sR with
    | nil => simp at h1
    | cons s st =>
      cases rR with
      | nil => simp at h2
      | cons r rt =>
        have hhd := h3 (n, s, r) (by simp)
        simp only [groupedSlots, groupedPairs, List.zip_cons_cons,
          List.flatMap_cons, List.map_append] at *
        rw [zip3_proj_fst n s r hhd.1 hhd.2]
        rw [ih st rt ⟨by simpa using h1, by simpa using h2,
          fun g hg => h3 g (List.mem_cons_of_mem _ hg)⟩]

/-- Projecting the grouped slot list onto the receive table. -/
theorem groupedSlots_proj_recv : ∀ (nbrs : List (List ℤ))
    (sR rR : List (List Bound)), tablesWf nbrs sR rR →
    (groupedSlots nbrs sR rR).map (fun x => (x.1, x.2.2)) =
      groupedPairs nbrs rR := by
  intro nbrs
  induction nbrs with
  | nil =>
    intro sR rR h
    obtain ⟨h1, h2, -⟩ := h
    cases sR with
    | nil =>
      cases rR with
      | nil => simp [groupedSlots, groupedPairs]
      | cons r rt => simp at h2
    | cons s st => simp at h1
  | cons n nt ih =>
    intro sR rR h
    obtain ⟨h1, h2, h3⟩ := h
    cases sR with
    | nil => simp at h1
    | cons s st =>
      cases rR with
      | nil => simp at h2
      | cons r rt =>
        have hhd := h3 (n, s, r) (by simp)
        simp only [groupedSlots, groupedPairs, List.zip_cons_cons,
          List.flatMap_cons, List.map_append] at *
        rw [zip3_proj_snd n s r hhd.1 hhd.2]
        rw [ih st rt ⟨by simpa using h1, by simpa using h2,
          fun g hg => h3 g (List.mem_cons_of_mem _ hg)⟩]

/-- Filtering then projecting the zipped vertex slot list onto the first
range table. -/
theorem vertexSlots_proj_fst : ∀ (ns : List ℤ) (ss rs : List Bound),
    ns.length = ss.length → ss.length = rs.length →
    ((ns.zip (ss.zip rs)).filter (fun x => decide (0 ≤ x.1))).map
        (fun x => (x.1, x.2.1)) = vertexPairs ns ss := by
  intro ns
  induction ns with
  | nil => intro ss rs _ _; simp [vertexPairs]
  | cons n nt ih =>
    intro ss rs h1 h2
    cases ss with
    | nil => simp at h1
    | cons s st =>
      cases rs with
      | nil => simp at h2
      | cons r rt =>
        simp only [vertexPairs, List.zip_cons_cons, List.filter_cons] at *
        by_cases hn : 0 ≤ n
        · simp only [hn, decide_True, if_true, List.map_cons]
          rw [show ((nt.zip (st.zip rt)).filter
                (fun x => decide (0 ≤ x.1))).map (fun x => (x.1, x.2.1)) =
              vertexPairs nt st from
            ih st rt (by simpa using h1) (by simpa using h2), vertexPairs]
        · simp only [hn, decide_False, Bool.false_eq_true, if_false]
          rw [show ((nt.zip (st.zip rt)).filter
                (fun x => decide (0 ≤ x.1))).map (fun x => (x.1, x.2.1)) =
              vertexPairs nt st from
            ih st rt (by simpa using h1) (by simpa using h2), vertexPairs]

/-- Filtering then projecting the zipped vertex slot list onto the second
range table. -/
theorem vertexSlots_proj_snd : ∀ (ns : List ℤ) (ss rs : List Bound),
    ns.length = ss.length → ss.length = rs.length →
    ((ns.zip (ss.zip rs)).filter (fun x => decide (0 ≤ x.1))).map
        (fun x => (x.1, x.2.2)) = vertexPairs ns rs := by
  intro ns
  induction ns with
  | nil =>
    intro ss rs h1 h2
    cases ss with
    | nil =>
      cases rs with
      | nil => simp [vertexPairs]
      | cons r rt => simp at h2
    | cons s st => simp at h1
  | cons n nt ih =>
    intro ss rs h1 h2
    cases ss with
    | nil => simp at h1
    | cons s st =>
      cases rs with
      | nil => simp at h2
      | cons r rt =>
        simp only [vertexPairs, List.zip_cons_cons, List.filter_cons] at *
        by_cases hn : 0 ≤ n
        · simp only [hn, decide_True, if_true, List.map_cons]
          rw [show ((nt.zip (st.zip rt)).filter
                (fun x => decide (0 ≤ x.1))).map (fun x => (x.1, x.2.2)) =
              vertexPairs nt rt from
            ih st rt (by simpa using h1) (by simpa using h2), vertexPairs]
        · simp only [hn, decide_False, Bool.false_eq_true, if_false]
          rw [show ((nt.zip (st.zip rt)).filter
                (fun x => decide (0 ≤ x.1))).map (fun x => (x.1, x.2.2)) =
              vertexPairs nt rt from
            ih st rt (by simpa using h1) (by simpa using h2), vertexPairs]

/-- **C6** (confirmed).  In every halo exchange phase — faces, edges and
vertices — with mode `INTERNAL_TO_HALO` the sends use the precomputed
`send_range` table and the receives the `recv_range` table; with mode
`HALO_TO_INTERNAL` the two are swapped; and vertex slots marked as physical
boundary (negative sentinel) are skipped entirely in both the send and the
receive direction.  Stated as: the `(rank, range)` projection of the posted
sends/receives equals the spec-side pairing of the neighbor lists with the
corresponding table (filtered of boundary slots for vertices). -/
theorem c6_range_selection {α : Type} [Add α] (op : CombineOp) (v : View α)
    (L : Layout) (nghost : ℤ) (inbox : ℕ → ℕ → α) (cycle : ℕ) (s : CommState)
    (fd : FieldBufferData α)
    (hF : tablesWf L.faceNeighbors L.faceSendRange L.faceRecvRange)
    (hE : tablesWf L.edgeNeighbors L.edgeSendRange L.edgeRecvRange)
    (hV : vertexTablesWf L.vertexNeighbors L.vertexSendRange
      L.vertexRecvRange) :
    ((exchangeFaces op v L nghost .internalToHalo inbox cycle s fd).sends.map
        fun m => (m.rank, m.range)) =
      groupedPairs L.faceNeighbors L.faceSendRange ∧
    ((exchangeFaces op v L nghost .internalToHalo inbox cycle s fd).recvs.map
        fun r => (r.rank, r.range)) =
      groupedPairs L.faceNeighbors L.faceRecvRange ∧
    ((exchangeFaces op v L nghost .haloToInternal inbox cycle s fd).sends.map
        fun m => (m.rank, m.range)) =
      groupedPairs L.faceNeighbors L.faceRecvRange ∧
    ((exchangeFaces op v L nghost .haloToInternal inbox cycle s fd).recvs.map
        fun r => (r.rank, r.range)) =
      groupedPairs L.faceNeighbors L.faceSendRange ∧
    ((exchangeEdges op v L nghost .internalToHalo inbox cycle s fd).sends.map
        fun m => (m.rank, m.range)) =
      groupedPairs L.edgeNeighbors L.edgeSendRange ∧
    ((exchangeEdges op v L nghost .internalToHalo inbox cycle s fd).recvs.map
        fun r => (r.rank, r.range)) =
      groupedPairs L.edgeNeighbors L.edgeRecvRange ∧
    ((exchangeEdges op v L nghost .haloToInternal inbox cycle s fd).sends.map
        fun m => (m.rank, m.range)) =
      groupedPairs L.edgeNeighbors L.edgeRecvRange ∧
    ((exchangeEdges op v L nghost .haloToInternal inbox cycle s fd).recvs.map
        fun r => (r.rank, r.range)) =
      groupedPairs L.edgeNeighbors L.edgeSendRange ∧
    ((exchangeVertices op v L nghost .internalToHalo inbox cycle s fd).sends.map
        fun m => (m.rank, m.range)) =
      vertexPairs L.vertexNeighbors L.vertexSendRange ∧
    ((exchangeVertices op v L nghost .internalToHalo inbox cycle s fd).recvs.map
        fun r => (r.rank, r.range)) =
      vertexPairs L.vertexNeighbors L.vertexRecvRange ∧
    ((exchangeVertices op v L nghost .haloToInternal inbox cycle s fd).sends.map
        fun m => (m.rank, m.range)) =
      vertexPairs L.vertexNeighbors L.vertexRecvRange ∧
    ((exchangeVertices op v L nghost .haloToInternal inbox cycle s fd).recvs.map
        fun r => (r.rank, r.range)) =
      vertexPairs L.vertexNeighbors L.vertexSendRange := by
  refine ⟨?_, ?_, ?_, ?_, ?_, ?_, ?_, ?_, ?_, ?_, ?_, ?_⟩
  · simp only [exchangeFaces, exchangeGrouped, sendLoop_msgs]
    exact groupedSlots_proj_send _ _ _ hF
  · simp only [exchangeFaces, exchangeGrouped, recvLoop_msgs]
    exact groupedSlots_proj_recv _ _ _ hF
  · simp only [exchangeFaces, exchangeGrouped, sendLoop_msgs]
    exact groupedSlots_proj_recv _ _ _ hF
  · simp only [exchangeFaces, exchangeGrouped, recvLoop_msgs]
    exact groupedSlots_proj_send _ _ _ hF
  · simp only [exchangeEdges, exchangeGrouped, sendLoop_msgs]
    exact groupedSlots_proj_send _ _ _ hE
  · simp only [exchangeEdges, exchangeGrouped, recvLoop_msgs]
    exact groupedSlots_proj_recv _ _ _ hE
  · simp only [exchangeEdges, exchangeGrouped, sendLoop_msgs]
    exact groupedSlots_proj_recv _ _ _ hE
  · simp only [exchangeEdges, exchangeGrouped, recvLoop_msgs]
    exact groupedSlots_proj_send _ _ _ hE
  · simp only [exchangeVertices, vertexSendLoop_msgs, vertexSlots]
    exact vertexSlots_proj_fst _ _ _ hV.1 hV.2
  · simp only [exchangeVertices, vertexRecvLoop_msgs, vertexSlots]
    exact vertexSlots_proj_snd _ _ _ hV.1 hV.2
  · simp only [exchangeVertices, vertexSendLoop_msgs, vertexSlots]
    exact vertexSlots_proj_snd _ _ _ hV.1 hV.2
  · simp only [exchangeVertices, vertexRecvLoop_msgs, vertexSlots]
    exact vertexSlots_proj_fst _ _ _ hV.1 hV.2

/-- Witness for C6: the range-selection property evaluated on the concrete
`witnessLayout`, whose shape invariants hold by computation. -/
theorem c6_witness :
    tablesWf witnessLayout.faceNeighbors witnessLayout.faceSendRange
      witnessLayout.faceRecvRange ∧
    tablesWf witnessLayout.edgeNeighbors witnessLayout.edgeSendRange
      witnessLayout.edgeRecvRange ∧
    vertexTablesWf witnessLayout.vertexNeighbors witnessLayout.vertexSendRange
      witnessLayout.vertexRecvRange ∧
    (((exchangeFaces .assign (fun _ => (0 : ℚ)) witnessLayout 1
        .internalToHalo (fun _ _ => 0) 1000 (fun _ => 0) ⟨0, fun _ => 0⟩).sends.map
        fun m => (m.rank, m.range)) =
      groupedPairs witnessLayout.faceNeighbors witnessLayout.faceSendRange ∧
    ((exchangeFaces .assign (fun _ => (0 : ℚ)) witnessLayout 1
        .internalToHalo (fun _ _ => 0) 1000 (fun _ => 0) ⟨0, fun _ => 0⟩).recvs.map
        fun r => (r.rank, r.range)) =
      groupedPairs witnessLayout.faceNeighbors witnessLayout.faceRecvRange ∧
    ((exchangeFaces .assign (fun _ => (0 : ℚ)) witnessLayout 1
        .haloToInternal (fun _ _ => 0) 1000 (fun _ => 0) ⟨0, fun _ => 0⟩).sends.map
        fun m => (m.rank, m.range)) =
      groupedPairs witnessLayout.faceNeighbors witnessLayout.faceRecvRange ∧
    ((exchangeFaces .assign (fun _ => (0 : ℚ)) witnessLayout 1
        .haloToInternal (fun _ _ => 0) 1000 (fun _ => 0) ⟨0, fun _ => 0⟩).recvs.map
        fun r => (r.rank, r.range)) =
      groupedPairs witnessLayout.faceNeighbors witnessLayout.faceSendRange ∧
    ((exchangeEdges .assign (fun _ => (0 : ℚ)) witnessLayout 1
        .internalToHalo (fun _ _ => 0) 1000 (fun _ => 0) ⟨0, fun _ => 0⟩).sends.map
        fun m => (m.rank, m.range)) =
      groupedPairs witnessLayout.edgeNeighbors witnessLayout.edgeSendRange ∧
    ((exchangeEdges .assign (fun _ => (0 : ℚ)) witnessLayout 1
        .internalToHalo (fun _ _ => 0) 1000 (fun _ => 0) ⟨0, fun _ => 0⟩).recvs.map
        fun r => (r.rank, r.range)) =
      groupedPairs witnessLayout.edgeNeighbors witnessLayout.edgeRecvRange ∧
    ((exchangeEdges .assign (fun _ => (0 : ℚ)) witnessLayout 1
        .haloToInternal (fun _ _ => 0) 1000 (fun _ => 0) ⟨0, fun _ => 0⟩).sends.map
        fun m => (m.rank, m.range)) =
      groupedPairs witnessLayout.edgeNeighbors witnessLayout.edgeRecvRange ∧
    ((exchangeEdges .assign (fun _ => (0 : ℚ)) witnessLayout 1
        .haloToInternal (fun _ _ => 0) 1000 (fun _ => 0) ⟨0, fun _ => 0⟩).recvs.map
        fun r => (r.rank, r.range)) =
      groupedPairs witnessLayout.edgeNeighbors witnessLayout.edgeSendRange ∧
    ((exchangeVertices .assign (fun _ => (0 : ℚ)) witnessLayout 1
        .internalToHalo (fun _ _ => 0) 1000 (fun _ => 0) ⟨0, fun _ => 0⟩).sends.map
        fun m => (m.rank, m.range)) =
      vertexPairs witnessLayout.vertexNeighbors witnessLayout.vertexSendRange ∧
    ((exchangeVertices .assign (fun _ => (0 : ℚ)) witnessLayout 1
        .internalToHalo (fun _ _ => 0) 1000 (fun _ => 0) ⟨0, fun _ => 0⟩).recvs.map
        fun r => (r.rank, r.range)) =
      vertexPairs witnessLayout.vertexNeighbors witnessLayout.vertexRecvRange ∧
    ((exchangeVertices .assign (fun _ => (0 : ℚ)) witnessLayout 1
        .haloToInternal (fun _ _ => 0) 1000 (fun _ => 0) ⟨0, fun _ => 0⟩).sends.map
        fun m => (m.rank, m.range)) =
      vertexPairs witnessLayout.vertexNeighbors witnessLayout.vertexRecvRange ∧
    ((exchangeVertices .assign (fun _ => (0 : ℚ)) witnessLayout 1
        .haloToInternal (fun _ _ => 0) 1000 (fun _ => 0) ⟨0, fun _ => 0⟩).recvs.map
        fun r => (r.rank, r.range)) =
      vertexPairs witnessLayout.vertexNeighbors witnessLayout.vertexSendRange) :=
  ⟨by decide, by decide, by decide,
   c6_range_selection .assign (fun _ => (0 : ℚ)) witnessLayout 1
     (fun _ _ => 0) 1000 (fun _ => 0) ⟨0, fun _ => 0⟩
     (by decide) (by decide) (by decide)⟩

/-! ### Claim C8 -/

/-- Row-major mixed-radix arithmetic: the linear index
`i + j·ex0 + k·ex0·ex1` of a box point is below the box size, and the
quotient/remainder decomposition recovers `(i, j, k)`. -/
theorem lin_decode (b : Bound) (i j k : ℕ) (hi : i < b.ex0) (hj : j < b.ex1)
    (hk : k < b.ex2) :
    i + j * b.ex0 + k * (b.ex0 * b.ex1) < b.size ∧
    (i + j * b.ex0 + k * (b.ex0 * b.ex1)) % b.ex0 = i ∧
    ((i + j * b.ex0 + k * (b.ex0 * b.ex1)) / b.ex0) % b.ex1 = j ∧
    (i + j * b.ex0 + k * (b.ex0 * b.ex1)) / (b.ex0 * b.ex1) = k := by
  set e0 := b.ex0 with he0
  set e1 := b.ex1 with he1
  set e2 := b.ex2 with he2
  have h0 : 0 < e0 := Nat.pos_of_ne_zero (by intro h; omega)
  have h1 : 0 < e1 := Nat.pos_of_ne_zero (by intro h; omega)
  have h01 : 0 < e0 * e1 := Nat.mul_pos h0 h1
  have hkey : i + j * e0 + k * (e0 * e1) = i + e0 * (j + e1 * k) := by ring
  have hsmall : i + j * e0 < e0 * e1 := by
    calc i + j * e0 < e0 + j * e0 := by omega
    _ = (j + 1) * e0 := by ring
    _ ≤ e1 * e0 := Nat.mul_le_mul_right e0 hj
    _ = e0 * e1 := Nat.mul_comm e1 e0
  refine ⟨?_, ?_, ?_, ?_⟩
  · have : i + j * e0 + k * (e0 * e1) < e0 * e1 + k * (e0 * e1) := by omega
    have hle : e0 * e1 + k * (e0 * e1) ≤ e0 * e1 * e2 := by
      calc e0 * e1 + k * (e0 * e1) = (k + 1) * (e0 * e1) := by ring
      _ ≤ e2 * (e0 * e1) := Nat.mul_le_mul_right _ hk
      _ = e0 * e1 * e2 := Nat.mul_comm e2 (e0 * e1)
    calc i + j * e0 + k * (e0 * e1) < e0 * e1 + k * (e0 * e1) := this
    _ ≤ e0 * e1 * e2 := hle
  · rw [hkey, Nat.add_mul_mod_self_left, Nat.mod_eq_of_lt hi]
  · rw [hkey, Nat.add_mul_div_left _ _ h0, Nat.div_eq_of_lt hi, Nat.zero_add,
      Nat.add_mul_mod_self_left, Nat.mod_eq_of_lt hj]
  · have : i + j * e0 + k * (e0 * e1) = (i + j * e0) + (e0 * e1) * k := by
      ring
    rw [this, Nat.add_mul_div_left _ _ h01, Nat.div_eq_of_lt hsmall,
      Nat.zero_add]

/-- Extent bounds transfer to the integer coordinates of a box point. -/
theorem mem_of_offsets (b : Bound) (i j k : ℕ) (hi : i < b.ex0)
    (hj : j < b.ex1) (hk : k < b.ex2) :
    b.mem (b.lo0 + (i : ℤ), b.lo1 + (j : ℤ), b.lo2 + (k : ℤ)) := by
  unfold Bound.mem
  unfold Bound.ex0 at hi
  unfold Bound.ex1 at hj
  unfold Bound.ex2 at hk
  dsimp only
  omega

/-- The linear index of the box point at offsets `(i, j, k)` is the
row-major encoding `i + j·ex0 + k·ex0·ex1`. -/
theorem lin_of_offsets (b : Bound) (i j k : ℕ) :
    b.lin (b.lo0 + (i : ℤ), b.lo1 + (j : ℤ), b.lo2 + (k : ℤ)) =
      i + j * b.ex0 + k * (b.ex0 * b.ex1) := by
  unfold Bound.lin
  simp only [add_sub_cancel_left, Int.toNat_natCast]
  ring

/-- **C8** (confirmed).  For every sub-range and box offsets
`(i,j,k)` with `i < ex0`, `j < ex1`, `k < ex2`: `pack` linearizes the
sub-view into the buffer by the row-major formula
`buffer[i + j·ex0 + k·ex0·ex1] = view[lo + (i,j,k)]`; `unpack` applies
`op(view[lo + (i,j,k)], buffer[i + j·ex0 + k·ex0·ex1])` at the same
positions; and `pack` followed by `unpack` with the `assign` op over the
same range restores the sub-view unchanged. -/
theorem c8_pack_unpack_roundtrip {α : Type} [Add α] (b : Bound) (v : View α)
    (buf buf2 : ℕ → α) (op : CombineOp) (i j k : ℕ) (hi : i < b.ex0)
    (hj : j < b.ex1) (hk : k < b.ex2) :
    packBuf b v buf (i + j * b.ex0 + k * (b.ex0 * b.ex1)) =
      v (b.lo0 + (i : ℤ), b.lo1 + (j : ℤ), b.lo2 + (k : ℤ)) ∧
    unpackView op b buf2 v (b.lo0 + (i : ℤ), b.lo1 + (j : ℤ), b.lo2 + (k : ℤ)) =
      op.apply (v (b.lo0 + (i : ℤ), b.lo1 + (j : ℤ), b.lo2 + (k : ℤ)))
        (buf2 (i + j * b.ex0 + k * (b.ex0 * b.ex1))) ∧
    unpackView .assign b (packBuf b v buf) v
        (b.lo0 + (i : ℤ), b.lo1 + (j : ℤ), b.lo2 + (k : ℤ)) =
      v (b.lo0 + (i : ℤ), b.lo1 + (j : ℤ), b.lo2 + (k : ℤ)) := by
  obtain ⟨hlt, hmod0, hmod1, hdiv⟩ := lin_decode b i j k hi hj hk
  have hmem := mem_of_offsets b i j k hi hj hk
  have hlin := lin_of_offsets b i j k
  have hpack : packBuf b v buf (i + j * b.ex0 + k * (b.ex0 * b.ex1)) =
      v (b.lo0 + (i : ℤ), b.lo1 + (j : ℤ), b.lo2 + (k : ℤ)) := by
    unfold packBuf
    rw [if_pos hlt, hmod0, hmod1, hdiv]
  refine ⟨hpack, ?_, ?_⟩
  · unfold unpackView
    rw [if_pos hmem, hlin]
  · unfold unpackView
    rw [if_pos hmem, hlin]
    show packBuf b v buf _ = _
    rw [hpack]

/-- Witness for C8: the pack/unpack/round-trip identities at the concrete
sub-range `[0,2)×[0,3)×[0,4)`, offsets `(1,2,3)`, over the integer view
`(x,y,z) ↦ x + 2y + 3z` with the `plus_assign` op. -/
theorem c8_witness :
    (1 < (⟨0, 0, 0, 2, 3, 4⟩ : Bound).ex0 ∧
     2 < (⟨0, 0, 0, 2, 3, 4⟩ : Bound).ex1 ∧
     3 < (⟨0, 0, 0, 2, 3, 4⟩ : Bound).ex2) ∧
    (packBuf (⟨0, 0, 0, 2, 3, 4⟩ : Bound)
        (fun p => p.1 + 2 * p.2.1 + 3 * p.2.2) (fun _ => (0 : ℤ))
        (1 + 2 * (⟨0, 0, 0, 2, 3, 4⟩ : Bound).ex0 +
          3 * ((⟨0, 0, 0, 2, 3, 4⟩ : Bound).ex0 *
            (⟨0, 0, 0, 2, 3, 4⟩ : Bound).ex1)) =
      (fun p : ℤ × ℤ × ℤ => p.1 + 2 * p.2.1 + 3 * p.2.2)
        ((⟨0, 0, 0, 2, 3, 4⟩ : Bound).lo0 + ((1 : ℕ) : ℤ),
         (⟨0, 0, 0, 2, 3, 4⟩ : Bound).lo1 + ((2 : ℕ) : ℤ),
         (⟨0, 0, 0, 2, 3, 4⟩ : Bound).lo2 + ((3 : ℕ) : ℤ)) ∧
     unpackView .plusAssign (⟨0, 0, 0, 2, 3, 4⟩ : Bound) (fun _ => (5 : ℤ))
        (fun p => p.1 + 2 * p.2.1 + 3 * p.2.2)
        ((⟨0, 0, 0, 2, 3, 4⟩ : Bound).lo0 + ((1 : ℕ) : ℤ),
         (⟨0, 0, 0, 2, 3, 4⟩ : Bound).lo1 + ((2 : ℕ) : ℤ),
         (⟨0, 0, 0, 2, 3, 4⟩ : Bound).lo2 + ((3 : ℕ) : ℤ)) =
      CombineOp.apply .plusAssign
        ((fun p : ℤ × ℤ × ℤ => p.1 + 2 * p.2.1 + 3 * p.2.2)
          ((⟨0, 0, 0, 2, 3, 4⟩ : Bound).lo0 + ((1 : ℕ) : ℤ),
           (⟨0, 0, 0, 2, 3, 4⟩ : Bound).lo1 + ((2 : ℕ) : ℤ),
           (⟨0, 0, 0, 2, 3, 4⟩ : Bound).lo2 + ((3 : ℕ) : ℤ)))
        ((fun _ => (5 : ℤ))
          (1 + 2 * (⟨0, 0, 0, 2, 3, 4⟩ : Bound).ex0 +
            3 * ((⟨0, 0, 0, 2, 3, 4⟩ : Bound).ex0 *
              (⟨0, 0, 0, 2, 3, 4⟩ : Bound).ex1))) ∧
     unpackView .assign (⟨0, 0, 0, 2, 3, 4⟩ : Bound)
        (packBuf (⟨0, 0, 0, 2, 3, 4⟩ : Bound)
          (fun p => p.1 + 2 * p.2.1 + 3 * p.2.2) (fun _ => (0 : ℤ)))
        (fun p => p.1 + 2 * p.2.1 + 3 * p.2.2)
        ((⟨0, 0, 0, 2, 3, 4⟩ : Bound).lo0 + ((1 : ℕ) : ℤ),
         (⟨0, 0, 0, 2, 3, 4⟩ : Bound).lo1 + ((2 : ℕ) : ℤ),
         (⟨0, 0, 0, 2, 3, 4⟩ : Bound).lo2 + ((3 : ℕ) : ℤ)) =
      (fun p : ℤ × ℤ × ℤ => p.1 + 2 * p.2.1 + 3 * p.2.2)
        ((⟨0, 0, 0, 2, 3, 4⟩ : Bound).lo0 + ((1 : ℕ) : ℤ),
         (⟨0, 0, 0, 2, 3, 4⟩ : Bound).lo1 + ((2 : ℕ) : ℤ),
         (⟨0, 0, 0, 2, 3, 4⟩ : Bound).lo2 + ((3 : ℕ) : ℤ))) :=
  ⟨⟨by decide, by decide, by decide⟩,
   c8_pack_unpack_roundtrip (⟨0, 0, 0, 2, 3, 4⟩ : Bound)
     (fun p => p.1 + 2 * p.2.1 + 3 * p.2.2) (fun _ => (0 : ℤ))
     (fun _ => (5 : ℤ)) .plusAssign 1 2 3
     (by decide) (by decide) (by decide)⟩

/-! ### Claim C1 — CIC scatter (src/Particle/ParticleAttrib.hpp, lines 153-210)

`double` arithmetic is modelled by exact rationals; every quantity arising
in the C1 scenario (origin 0, unit spacing, position 1.5) is a small dyadic
on which IEEE double arithmetic is exact, so the models agree there. -/

/-- The C++ `double → int` conversion (`Vector<int, Dim> index = l;`):
truncation toward zero. -/
def ratTrunc (q : ℚ) : ℤ := if 0 ≤ q then ⌊q⌋ else -⌊-q⌋

/-- One `Kokkos::atomic_add(&view(c), w)`: bump the view at cell `c` by
`w`. -/
def addAt (c : ℤ × ℤ × ℤ) (w : ℚ) (v : View ℚ) : View ℚ :=
  fun p => if p = c then v p + w else v p

/-- The per-particle body of `ParticleAttrib::scatter` (ParticleAttrib.hpp,
lines 176-203):
```
vector_type l = (pp(idx) - origin) * invdx + 0.5;
Vector<int, Dim> index = l;
Vector<double, Dim> whi = l - index;
Vector<double, Dim> wlo = 1.0 - whi;
const size_t i = index[0] - lDom[0].first() + nghost;  (same for j, k)
Kokkos::atomic_add(&view(i-1, j-1, k-1), wlo[0]*wlo[1]*wlo[2]*val);  ... (8 adds)
```
with `invdx = 1.0 / dx` componentwise. -/
def depositOne (origin spacing : ℚ × ℚ × ℚ) (lFirst : ℤ × ℤ × ℤ)
    (nghost : ℤ) (val : ℚ) (pos : ℚ × ℚ × ℚ) (view : View ℚ) : View ℚ :=
  let invdx0 := 1 / spacing.1
  let invdx1 := 1 / spacing.2.1
  let invdx2 := 1 / spacing.2.2
  let l0 := (pos.1 - origin.1) * invdx0 + 1 / 2
  let l1 := (pos.2.1 - origin.2.1) * invdx1 + 1 / 2
  let l2 := (pos.2.2 - origin.2.2) * invdx2 + 1 / 2
  let idx0 := ratTrunc l0
  let idx1 := ratTrunc l1
  let idx2 := ratTrunc l2
  let whi0 := l0 - (idx0 : ℚ)
  let whi1 := l1 - (idx1 : ℚ)
  let whi2 := l2 - (idx2 : ℚ)
  let wlo0 := 1 - whi0
  let wlo1 := 1 - whi1
  let wlo2 := 1 - whi2
  let i := idx0 - lFirst.1 + nghost
  let j := idx1 - lFirst.2.1 + nghost
  let k := idx2 - lFirst.2.2 + nghost
  addAt (i, j, k) (whi0 * whi1 * whi2 * val)
    (addAt (i, j, k - 1) (whi0 * whi1 * wlo2 * val)
      (addAt (i, j - 1, k) (whi0 * wlo1 * whi2 * val)
        (addAt (i, j - 1, k - 1) (whi0 * wlo1 * wlo2 * val)
          (addAt (i - 1, j, k) (wlo0 * whi1 * whi2 * val)
            (addAt (i - 1, j, k - 1) (wlo0 * whi1 * wlo2 * val)
              (addAt (i - 1, j - 1, k) (wlo0 * wlo1 * whi2 * val)
                (addAt (i - 1, j - 1, k - 1) (wlo0 * wlo1 * wlo2 * val)
                  view)))))))

/-- The deposition loop of `ParticleAttrib::scatter`: the parallel loop over
all particles, each performing the eight atomic adds.  Because atomic
addition is commutative and associative, any execution order of the parallel
loop yields this sequential fold's result. -/
def scatterDeposit (origin spacing : ℚ × ℚ × ℚ) (lFirst : ℤ × ℤ × ℤ)
    (nghost : ℤ) (q : ℕ → ℚ) (pos : ℕ → ℚ × ℚ × ℚ) (cnt : ℕ)
    (view : View ℚ) : View ℚ :=
  (List.range cnt).foldl
    (fun v idx => depositOne origin spacing lFirst nghost (q idx) (pos idx) v)
    view

/-- Modelled from the spec: the `FieldLayout` of a single-rank run
(`FieldLayout` construction is outside the provided sources).  Per spec
§4.3, with one rank there is no remote neighbor: every face and edge slot
list is empty, and all 8 vertex slots carry the physical-boundary sentinel
(negative rank). -/
def singleRankLayout : Layout :=
  { faceNeighbors := List.replicate 6 []
    faceSendRange := List.replicate 6 []
    faceRecvRange := List.replicate 6 []
    edgeNeighbors := List.replicate 12 []
    edgeSendRange := List.replicate 12 []
    edgeRecvRange := List.replicate 12 []
    vertexNeighbors := List.replicate 8 (-1)
    vertexSendRange := List.replicate 8 ⟨0, 0, 0, 0, 0, 0⟩
    vertexRecvRange := List.replicate 8 ⟨0, 0, 0, 0, 0, 0⟩ }

/-- The C1 scenario: one rank, global = local domain `[0,4)³`
(`lDom.first = 0`), `nghost = 1`, origin `0`, unit spacing; a zero field;
one particle of charge `1` at position `(1.5, 1.5, 1.5)`.  `scatter` runs
the deposition loop and then `f.accumulateHalo()`. -/
def c1Final : View ℚ :=
  (accumulateHalo
    (scatterDeposit (0, 0, 0) (1, 1, 1) (0, 0, 0) 1
      (fun _ => 1) (fun _ => (3 / 2, 3 / 2, 3 / 2)) 1 (fun _ => 0))
    singleRankLayout 1 (fun _ _ _ => 0) 1000 (fun _ => 0)
    ⟨0, fun _ => 0⟩).view

/-- On the single-rank layout every neighbor slot is empty or a physical
boundary, so `accumulateHalo` leaves the view untouched: `c1Final` is the
post-deposition view. -/
theorem c1Final_eq_deposit :
    c1Final =
      scatterDeposit (0, 0, 0) (1, 1, 1) (0, 0, 0) 1
        (fun _ => 1) (fun _ => (3 / 2, 3 / 2, 3 / 2)) 1 (fun _ => 0) := by
  rfl

/-- **C1 counterexample** (claim as stated is false).  The claim asserts
that after `scatter` + `accumulate_halo` each of the eight cells
`{0,1}×{0,1}×{0,1}` carries `0.125`.  Cell `(0,0,0)` sits at view index
`(1,1,1)` (local-view shift `+nghost = +1`), and the code leaves it at `0`,
not `1/8`: with the claim's own weight formula, `l = (1.5-0)/1 + 0.5 = 2.0`,
so `w_hi = 0` and the whole charge lands elsewhere. -/
theorem c1_counterexample :
    c1Final (1, 1, 1) = 0 ∧ c1Final (1, 1, 1) ≠ 1 / 8 := by
  have h : c1Final (1, 1, 1) = 0 := by
    rw [c1Final_eq_deposit]
    simp only [scatterDeposit, List.range_succ, List.range_zero,
      List.nil_append, List.foldl_cons, List.foldl_nil]
    unfold depositOne
    norm_num [ratTrunc, addAt, Prod.mk.injEq]
    all_goals decide
  exact ⟨h, by rw [h]; norm_num⟩

/-- **C1 amended** (proved).  Same scenario, corrected outcome: the particle
at `(1.5, 1.5, 1.5)` sits exactly at the center of cell `(1,1,1)`, so
`l = 2.0`, `idx = 2`, `w_hi = 0`, `w_lo = 1`, and the full charge `1` is
deposited into the single cell `(1,1,1)` — view index `(2,2,2)` — while
every other cell (and every halo cell) stays `0`; `accumulate_halo` on the
single rank moves nothing. -/
theorem c1_amended (p : ℤ × ℤ × ℤ) :
    c1Final p = if p = (2, 2, 2) then 1 else 0 := by
  obtain ⟨x, y, z⟩ := p
  rw [c1Final_eq_deposit]
  simp only [scatterDeposit, List.range_succ, List.range_zero,
    List.nil_append, List.foldl_cons, List.foldl_nil]
  unfold depositOne
  norm_num [ratTrunc, addAt, Prod.mk.injEq]

end IpplSpec
